import Mathlib

/-!
# Verification of the polyhedra-viewer mesh core

A shallow embedding of the `Polyhedron` mesh entity
(`src/components/Viewer/common/X3dScene/SolidColors.jsx`, second document:
the `Polyhedron` class), the vector/plane primitives (`src/math/linAlg.js`)
and the operation postconditions exercised by `src/math/operations.test.js`.

Vertices are rational 3D points; faces are lists of vertex indices; the
`_edges` field models the instance's precomputed/memoized edge collection
(`this._edges`).  Fallible JS paths (thrown errors, `undefined` member
access) are modelled with `Except`/`Option`.
-/

namespace PolyViewer

/-- A 3D point with rational coordinates (JS `Vertex = number[]`). -/
abbrev Point := ℚ × ℚ × ℚ

/-- A face: the ordered, cyclic list of vertex indices (JS `Face`). -/
abbrev Face := List Nat

/-- An edge: a pair of vertex indices.  Undirected edges are kept in
normalized `(min, max)` form; directed edges are kept as written. -/
abbrev Edge := Nat × Nat

/-! ## Vector primitives (`src/math/linAlg.js` and the `Vec3D` operations
it re-exports) -/

/-- Componentwise vector addition (`Vec3D.add`). -/
def vadd (a b : Point) : Point := (a.1 + b.1, a.2.1 + b.2.1, a.2.2 + b.2.2)

/-- Componentwise vector subtraction (`Vec3D.sub`). -/
def vsub (a b : Point) : Point := (a.1 - b.1, a.2.1 - b.2.1, a.2.2 - b.2.2)

/-- Scalar multiple (`Vec3D.scale`). -/
def vsmul (q : ℚ) (a : Point) : Point := (q * a.1, q * a.2.1, q * a.2.2)

/-- Dot product (`Vec3D.dot`). -/
def vdot (a b : Point) : ℚ := a.1 * b.1 + a.2.1 * b.2.1 + a.2.2 * b.2.2

/-- Cross product (`Vec3D.cross`). -/
def vcross (a b : Point) : Point :=
  (a.2.1 * b.2.2 - a.2.2 * b.2.1,
   a.2.2 * b.1 - a.1 * b.2.2,
   a.1 * b.2.1 - a.2.1 * b.1)

/-- Squared Euclidean norm (`Vec3D.magSquared`). -/
def normSq (a : Point) : ℚ := vdot a a

/-- Squared distance between two points (`Vec3D.distanceToSquared`). -/
def sqDist (a b : Point) : ℚ := normSq (vsub a b)

/-- `getMidpoint(v1, v2) = v1.add(v2).scale(0.5)` from `linAlg.js`. -/
def getMidpoint (a b : Point) : Point := vsmul (1/2) (vadd a b)

/-- `getCentroid(vectors)` from `linAlg.js`: the mean of the vectors.
`reduce` of an empty JS array throws, hence `Option`. -/
def getCentroid (l : List Point) : Option Point :=
  match l with
  | [] => none
  | v :: vs => some (vsmul (1 / (l.length : ℚ)) (vs.foldl vadd v))

/-- The tolerance `PRECISION = Math.pow(10, -3)` from `linAlg.js`. -/
def PRECISION : ℚ := 1/1000

/-! ## The `Polyhedron` entity

The JS constructor stores `vertices`, `faces` and (when the argument is
present) `this._edges`; the `name` argument is destructured but never
assigned to a field, so an instance has no name. -/

/-- The `Polyhedron` instance state: the two owned collections plus the
optional precomputed edge collection `this._edges`. -/
structure Polyhedron where
  vertices : List Point
  faces : List Face
  _edges : Option (List Edge) := none
deriving DecidableEq

/-- `Polyhedron.of(vertices, faces)`: direct construction; no edge cache. -/
def Polyhedron.of (vertices : List Point) (faces : List Face) : Polyhedron :=
  ⟨vertices, faces, none⟩

/-- A face handle (`FaceObj = new Face(polyhedron, fIndex)`): the face index
together with the face's vertex-index list. -/
structure FaceO where
  fIndex : Nat
  verts : List Nat
deriving DecidableEq

/-- `face.numSides()`: the side count of a face. -/
def FaceO.numSides (f : FaceO) : Nat := f.verts.length

/-- `getFaces()`: the face handles of the polyhedron in index order
(`fIndices().map(fIndex => getFace(fIndex))`). -/
def getFaces (p : Polyhedron) : List FaceO :=
  (List.range p.faces.length).map (fun i => ⟨i, p.faces.getD i []⟩)

/-- The undirected edges of one face: consecutive (wrap-around) vertex
pairs, normalized to unordered `(min, max)` form (spec §3: an edge is an
unordered pair of vertex indices). -/
def faceEdges (f : Face) : List Edge :=
  (f.zip (f.rotate 1)).map (fun ab => (min ab.1 ab.2, max ab.1 ab.2))

/-- Helper for `uniqFirst`: drop the elements seen before. -/
def uniqFirstAux (seen : List Edge) : List Edge → List Edge
  | [] => []
  | x :: xs => if x ∈ seen then uniqFirstAux seen xs else x :: uniqFirstAux (x :: seen) xs

/-- `_.uniqWith(_.isEqual)`: keep the first occurrence of each element. -/
def uniqFirst (l : List Edge) : List Edge := uniqFirstAux [] l

/-- `getAllEdges()`: flat-map the faces' edges and deduplicate. -/
def getAllEdges (p : Polyhedron) : List Edge :=
  uniqFirst (p.faces.flatMap faceEdges)

/-- The `edges` getter: returns `_edges` if present, otherwise computes
`getAllEdges()` (and memoizes it on the same instance). -/
def edges (p : Polyhedron) : List Edge :=
  p._edges.getD (getAllEdges p)

/-- The serializable snapshot produced by `toJSON()`.
`_.pick(this, ['vertices', 'faces', 'edges', 'name'])` reads the `edges`
getter (forcing the edge computation) and skips `name`, which the
constructor never stores, so the snapshot has no name component. -/
structure Snapshot where
  vertices : List Point
  faces : List Face
  edges : List Edge
deriving DecidableEq

/-- `toJSON()`. -/
def toJSON (p : Polyhedron) : Snapshot :=
  ⟨p.vertices, p.faces, edges p⟩

/-! ## Structural transforms

`withVertices`/`withFaces` build `new Polyhedron({...this.toJSON(), …})`:
the spread of the snapshot carries the (now forced) edge collection into
the new instance's `_edges`. -/

/-- `withVertices(vertices)`. -/
def withVertices (p : Polyhedron) (vs : List Point) : Polyhedron :=
  ⟨vs, (toJSON p).faces, some (toJSON p).edges⟩

/-- `withFaces(faces)`. -/
def withFaces (p : Polyhedron) (fs : List Face) : Polyhedron :=
  ⟨(toJSON p).vertices, fs, some (toJSON p).edges⟩

/-- `addVertices(vertices)`. -/
def addVertices (p : Polyhedron) (vs : List Point) : Polyhedron :=
  withVertices p (p.vertices ++ vs)

/-- `addFaces(faces)`. -/
def addFaces (p : Polyhedron) (fs : List Face) : Polyhedron :=
  withFaces p (p.faces ++ fs)

/-- `addPolyhedron(other)`: merge, offsetting `other`'s face indices by
this mesh's vertex count. -/
def addPolyhedron (p other : Polyhedron) : Polyhedron :=
  addFaces (addVertices p other.vertices)
    (other.faces.map (fun f => f.map (· + p.vertices.length)))

/-- `removeFace(face)`: delete the face at the handle's index
(`_.pullAt` on a copy). -/
def removeFace (p : Polyhedron) (f : FaceO) : Polyhedron :=
  withFaces p (p.faces.eraseIdx f.fIndex)

/-- Lodash `_.pullAt(xs, idxs)`: the indexes are sorted ascending and the
positions are spliced out from the highest down, so every index refers to
a position of the original list. -/
def pullAtL (xs : List Face) (idxs : List Nat) : List Face :=
  ((idxs.insertionSort (· ≤ ·)).reverse).foldl List.eraseIdx xs

/-- `removeFaces(faceObjs)`. -/
def removeFaces (p : Polyhedron) (fobjs : List FaceO) : Polyhedron :=
  withFaces p (pullAtL p.faces (fobjs.map FaceO.fIndex))

/-- `mapVertices(iteratee)` (the iteratee gets the vertex and its index). -/
def mapVertices (p : Polyhedron) (g : Point → Nat → Point) : Polyhedron :=
  withVertices p (p.vertices.enum.map (fun iv => g iv.2 iv.1))

/-- `mapFaces(iteratee)` (the iteratee gets the face handle). -/
def mapFaces (p : Polyhedron) (g : FaceO → Face) : Polyhedron :=
  withFaces p ((getFaces p).map g)

/-! ## Deleting positions: the specification side of `removeFaces`

`keepFrom idxs xs n` keeps exactly the entries of `xs` whose position
(counting from `n`) is not listed in `idxs` — the plain-words reading of
"the original list with exactly those positions deleted". -/

/-- Keep the entries whose position (from `n`) is not in `idxs`. -/
def keepFrom (idxs : List Nat) : List Face → Nat → List Face
  | [], _ => []
  | x :: xs, n => if n ∈ idxs then keepFrom idxs xs (n+1) else x :: keepFrom idxs xs (n+1)

theorem keepFrom_of_all_lt (idxs : List Nat) :
    ∀ (xs : List Face) (n : Nat), (∀ j ∈ idxs, j < n) → keepFrom idxs xs n = xs := by
  intro xs
  induction xs with
  | nil => intro n _; rfl
  | cons x xs ih =>
    intro n h
    have hn : n ∉ idxs := fun hmem => absurd (h n hmem) (lt_irrefl n)
    simp only [keepFrom, if_neg hn]
    exact congrArg (x :: ·) (ih (n+1) (fun j hj => Nat.lt_succ_of_lt (h j hj)))

theorem keepFrom_eraseIdx (i : Nat) (rest : List Nat) (hrest : ∀ j ∈ rest, j < i) :
    ∀ (xs : List Face) (n : Nat), n ≤ i →
      keepFrom rest (xs.eraseIdx (i - n)) n = keepFrom (i :: rest) xs n := by
  intro xs
  induction xs with
  | nil => intro n _; simp [List.eraseIdx, keepFrom]
  | cons x xs ih =>
    intro n hni
    rcases Nat.lt_or_ge n i with hlt | hge
    · have hsub : i - n = (i - (n+1)) + 1 := by omega
      rw [hsub]
      simp only [List.eraseIdx, keepFrom]
      have hne : n ≠ i := Nat.ne_of_lt hlt
      by_cases hn : n ∈ rest
      · rw [if_pos hn, if_pos (List.mem_cons_of_mem i hn)]
        exact ih (n+1) hlt
      · rw [if_neg hn, if_neg (fun h => (List.mem_cons.mp h).elim hne hn)]
        exact congrArg (x :: ·) (ih (n+1) hlt)
    · have heq : i = n := Nat.le_antisymm hge hni
      subst heq
      rw [Nat.sub_self]
      simp only [List.eraseIdx, keepFrom]
      rw [if_pos (List.mem_cons_self i rest)]
      rw [keepFrom_of_all_lt rest xs i hrest,
        keepFrom_of_all_lt (i :: rest) xs (i+1) ?_]
      intro j hj
      rcases List.mem_cons.mp hj with h | h
      · omega
      · exact Nat.lt_succ_of_lt (hrest j h)

theorem foldl_eraseIdx_sorted (idxs : List Nat) (hs : idxs.Sorted (· > ·)) :
    ∀ xs : List Face, idxs.foldl List.eraseIdx xs = keepFrom idxs xs 0 := by
  induction idxs with
  | nil =>
    intro xs
    simpa using (keepFrom_of_all_lt [] xs 0 (by simp)).symm
  | cons i rest ih =>
    intro xs
    have hrest : ∀ j ∈ rest, j < i := fun j hj => (List.sorted_cons.mp hs).1 j hj
    have hrest' : rest.Sorted (· > ·) := (List.sorted_cons.mp hs).2
    calc (i :: rest).foldl List.eraseIdx xs
        = rest.foldl List.eraseIdx (xs.eraseIdx i) := rfl
      _ = keepFrom rest (xs.eraseIdx i) 0 := ih hrest' (xs.eraseIdx i)
      _ = keepFrom (i :: rest) xs 0 := by
          have := keepFrom_eraseIdx i rest hrest xs 0 (Nat.zero_le i)
          simpa using this

theorem keepFrom_congr_mem (A B : List Nat) (h : ∀ j, j ∈ A ↔ j ∈ B) :
    ∀ (xs : List Face) (n : Nat), keepFrom A xs n = keepFrom B xs n := by
  intro xs
  induction xs with
  | nil => intro n; rfl
  | cons x xs ih =>
    intro n
    simp only [keepFrom]
    by_cases hn : n ∈ A
    · rw [if_pos hn, if_pos ((h n).mp hn)]; exact ih (n+1)
    · rw [if_neg hn, if_neg (fun hb => hn ((h n).mpr hb))]
      exact congrArg (x :: ·) (ih (n+1))

/-! ## Claim theorems: construction, transforms and face removal -/

/-- C5: round-trip construction.  `Polyhedron.of(p.vertices, p.faces)`
stores the vertex and face collections exactly, so its `toJSON()` snapshot
agrees with `p`'s snapshot on vertices and faces; its snapshot edges are
the freshly derived `getAllEdges` (no precomputed cache), which is why the
claim disregards the edge cache.  The display name is never stored by the
constructor, so snapshots carry no name either way. -/
theorem of_snapshot_roundtrip (p : Polyhedron) :
    (toJSON (Polyhedron.of p.vertices p.faces)).vertices = (toJSON p).vertices ∧
    (toJSON (Polyhedron.of p.vertices p.faces)).faces = (toJSON p).faces ∧
    (Polyhedron.of p.vertices p.faces).vertices = p.vertices ∧
    (Polyhedron.of p.vertices p.faces).faces = p.faces ∧
    (toJSON (Polyhedron.of p.vertices p.faces)).edges = getAllEdges p :=
  ⟨rfl, rfl, rfl, rfl, rfl⟩

/-- C1 (amended): every structural transform returns a new instance, but
the new instance's `_edges` field is **not** fresh: `withVertices` and
`withFaces` spread `this.toJSON()`, and `_.pick` forces the old instance's
`edges` getter, so every transform hands the old instance's (possibly
stale) computed edge collection to the new instance's constructor, which
stores it as the precomputed `_edges`. -/
theorem transforms_inherit_edge_cache (p other : Polyhedron) (vs : List Point)
    (fs : List Face) (f : FaceO) (fobjs : List FaceO)
    (g : Point → Nat → Point) (gf : FaceO → Face) :
    (withVertices p vs)._edges = some (edges p) ∧
    (withFaces p fs)._edges = some (edges p) ∧
    (addVertices p vs)._edges = some (edges p) ∧
    (addFaces p fs)._edges = some (edges p) ∧
    (addPolyhedron p other)._edges = some (edges p) ∧
    (removeFace p f)._edges = some (edges p) ∧
    (removeFaces p fobjs)._edges = some (edges p) ∧
    (mapVertices p g)._edges = some (edges p) ∧
    (mapFaces p gf)._edges = some (edges p) := by
  refine ⟨rfl, rfl, rfl, rfl, ?_, rfl, rfl, rfl, rfl⟩
  simp [addPolyhedron, addFaces, addVertices, withFaces, withVertices, toJSON, edges]

/-- C1 counterexample: on a concrete mesh, `withFaces` yields an instance
whose `_edges` is already populated — inherited from the old instance and
stale for the new face list (the fresh derivation would give different
edges).  This refutes "the new instance does not inherit the old
instance's computed edge collection". -/
theorem withFaces_stale_edge_cache_cex :
    (withFaces (Polyhedron.of [] [[0, 1, 2]]) [[3, 4, 5]])._edges =
      some [(0, 1), (1, 2), (0, 2)] ∧
    getAllEdges (withFaces (Polyhedron.of [] [[0, 1, 2]]) [[3, 4, 5]]) =
      [(3, 4), (4, 5), (3, 5)] := by
  constructor <;> rfl

/-- C10: `removeFaces(faceObjs)` interprets every face index against the
original face list (`_.pullAt` sorts the indexes and splices from the
highest down), so for distinct indices the result's face list is the
original list with exactly those positions deleted, and the vertex
collection is untouched. -/
theorem removeFaces_deletes_positions (p : Polyhedron) (fobjs : List FaceO)
    (hnd : (fobjs.map FaceO.fIndex).Nodup) :
    (removeFaces p fobjs).faces = keepFrom (fobjs.map FaceO.fIndex) p.faces 0 ∧
    (removeFaces p fobjs).vertices = p.vertices := by
  set idxs := fobjs.map FaceO.fIndex with hidxs
  have hperm : List.Perm (idxs.insertionSort (· ≤ ·)) idxs :=
    List.perm_insertionSort _ idxs
  have hndsorted : (idxs.insertionSort (· ≤ ·)).Nodup := hperm.nodup_iff.mpr hnd
  have hsorted : (idxs.insertionSort (· ≤ ·)).Sorted (· ≤ ·) :=
    List.sorted_insertionSort _ idxs
  have hlt : (idxs.insertionSort (· ≤ ·)).Sorted (· < ·) :=
    (hsorted.and hndsorted).imp (fun h => lt_of_le_of_ne h.1 h.2)
  have hgt : ((idxs.insertionSort (· ≤ ·)).reverse).Sorted (· > ·) := by
    rw [List.Sorted, List.pairwise_reverse]
    exact hlt
  refine ⟨?_, rfl⟩
  show pullAtL p.faces idxs = _
  rw [pullAtL, foldl_eraseIdx_sorted _ hgt]
  exact keepFrom_congr_mem _ _ (fun j => by
    rw [List.mem_reverse]
    exact ⟨fun h => hperm.mem_iff.mp h, fun h => hperm.mem_iff.mpr h⟩) p.faces 0

/-- C10 witness: deleting positions 3 and 1 (given in that order) from a
four-face list keeps positions 0 and 2, and leaves the vertices alone. -/
theorem removeFaces_deletes_positions_witness :
    (removeFaces (Polyhedron.of [(0, 0, 0)] [[0], [1], [2], [3]])
        [⟨3, [3]⟩, ⟨1, [1]⟩]).faces = [[0], [2]] ∧
    (removeFaces (Polyhedron.of [(0, 0, 0)] [[0], [1], [2], [3]])
        [⟨3, [3]⟩, ⟨1, [1]⟩]).vertices = [(0, 0, 0)] := by
  have h := removeFaces_deletes_positions
    (Polyhedron.of [(0, 0, 0)] [[0], [1], [2], [3]]) [⟨3, [3]⟩, ⟨1, [1]⟩] (by decide)
  refine ⟨?_, h.2⟩
  rw [h.1]
  rfl

/-! ## Vertex adjacency and the directed face fan

`adjacentFaces(vIndex)` reads `vertexToFaceGraph()`: faces are pushed in
face-index order, and the result is deduplicated by face index, i.e. it is
the list of faces containing the vertex, in face-index order.

`Face.nextVertex`/`Face.prevVertex` are modelled from the spec (§4.3:
"next/previous vertex relative to a query vertex within this face's cyclic
order"); the `Face` view class itself is not among the sources. -/

/-- Modelled from the spec: `face.nextVertex(vIndex)` — the vertex after
`v` in the face's cyclic order (meaningful when `v` is in the face). -/
def nextVertex (f : FaceO) (v : Nat) : Nat :=
  let i := f.verts.indexOf v
  f.verts.getD ((i + 1) % f.verts.length) 0

/-- Modelled from the spec: `face.prevVertex(vIndex)` — the vertex before
`v` in the face's cyclic order (meaningful when `v` is in the face). -/
def prevVertex (f : FaceO) (v : Nat) : Nat :=
  let i := f.verts.indexOf v
  f.verts.getD ((i + f.verts.length - 1) % f.verts.length) 0

/-- `adjacentFaces(vIndex)`: the faces touching the vertex, in face-index
order, deduplicated by face identity. -/
def adjacentFaces (p : Polyhedron) (v : Nat) : List FaceO :=
  (getFaces p).filter (fun f => v ∈ f.verts)

/-- The `do { result.push(next); next = find(...) } while (result.length <
touchingFaces.length)` loop of `directedAdjacentFaces`, with fuel equal to
the number of iterations.  `find` (from `util.js`, not among the sources)
is modelled from the spec as failing when no face matches.  Note that
`find` runs once more after the final push, before the loop condition is
re-checked — exactly as in the source. -/
def dafLoop (touching : List FaceO) (v : Nat) :
    Nat → FaceO → List FaceO → Except Unit (List FaceO)
  | 0, _, result => Except.ok result
  | fuel + 1, next, result =>
    let result' := result ++ [next]
    match touching.find? (fun f => nextVertex f v == prevVertex next v) with
    | none => Except.error ()
    | some nf =>
      if result'.length < touching.length then dafLoop touching v fuel nf result'
      else Except.ok result'

/-- `directedAdjacentFaces(vIndex)`: reconstruct the cyclic fan of faces
around a vertex.  An empty touching set fails (`touchingFaces[0]` is
`undefined` and the subsequent `find` fails). -/
def directedAdjacentFaces (p : Polyhedron) (v : Nat) : Except Unit (List FaceO) :=
  match adjacentFaces p v with
  | [] => Except.error ()
  | t0 :: _ => dafLoop (adjacentFaces p v) v (adjacentFaces p v).length t0 []

/-- The successive-face relation of the fan: the next face's next-vertex at
`v` equals the current face's prev-vertex at `v`. -/
def fanStep (v : Nat) (a b : FaceO) : Prop := nextVertex b v = prevVertex a v

theorem dafLoop_succ (touching : List FaceO) (v fuel : Nat) (next : FaceO)
    (result : List FaceO) :
    dafLoop touching v (fuel + 1) next result =
      match touching.find? (fun f => nextVertex f v == prevVertex next v) with
      | none => Except.error ()
      | some nf =>
        if (result ++ [next]).length < touching.length then
          dafLoop touching v fuel nf (result ++ [next])
        else Except.ok (result ++ [next]) := rfl

theorem dafLoop_fan (touching : List FaceO) (v : Nat)
    (hsucc : ∀ f ∈ touching, ∃ g ∈ touching, nextVertex g v = prevVertex f v) :
    ∀ (fuel : Nat) (next : FaceO) (result : List FaceO),
      next ∈ touching →
      result.length + (fuel + 1) = touching.length →
      (∀ f ∈ result, f ∈ touching) →
      List.Chain' (fanStep v) (result ++ [next]) →
      ∃ rest, dafLoop touching v (fuel + 1) next result =
          Except.ok (result ++ next :: rest) ∧
        (result ++ next :: rest).length = touching.length ∧
        (∀ f ∈ result ++ next :: rest, f ∈ touching) ∧
        List.Chain' (fanStep v) (result ++ next :: rest) := by
  intro fuel
  induction fuel with
  | zero =>
    intro next result hmem hlen hall hchain
    obtain ⟨g, hg, hgeq⟩ := hsucc next hmem
    obtain ⟨nf, hfind⟩ : ∃ nf,
        touching.find? (fun f => nextVertex f v == prevVertex next v) = some nf := by
      have : (touching.find? (fun f => nextVertex f v == prevVertex next v)).isSome := by
        rw [List.find?_isSome]
        exact ⟨g, hg, by simpa using hgeq⟩
      exact Option.isSome_iff_exists.mp this
    refine ⟨[], ?_, ?_, ?_, ?_⟩
    · rw [dafLoop_succ, hfind]
      dsimp only
      have hlen' : (result ++ [next]).length = touching.length := by
        simp only [List.length_append, List.length_singleton]
        omega
      rw [if_neg (by rw [hlen']; exact lt_irrefl _)]
    · simp only [List.length_append, List.length_cons, List.length_nil] at *
      omega
    · intro f hf
      rcases List.mem_append.mp hf with h | h
      · exact hall f h
      · rcases List.mem_cons.mp h with h' | h'
        · exact h' ▸ hmem
        · exact absurd h' (List.not_mem_nil f)
    · simpa using hchain
  | succ fuel ih =>
    intro next result hmem hlen hall hchain
    obtain ⟨g, hg, hgeq⟩ := hsucc next hmem
    obtain ⟨nf, hfind⟩ : ∃ nf,
        touching.find? (fun f => nextVertex f v == prevVertex next v) = some nf := by
      have : (touching.find? (fun f => nextVertex f v == prevVertex next v)).isSome := by
        rw [List.find?_isSome]
        exact ⟨g, hg, by simpa using hgeq⟩
      exact Option.isSome_iff_exists.mp this
    have hnfmem : nf ∈ touching := List.mem_of_find?_eq_some hfind
    have hnfstep : fanStep v next nf := by
      have := List.find?_some hfind
      simpa [fanStep] using this
    have hlt : (result ++ [next]).length < touching.length := by
      simp only [List.length_append, List.length_singleton]
      omega
    have hchain' : List.Chain' (fanStep v) ((result ++ [next]) ++ [nf]) := by
      rw [List.chain'_append]
      refine ⟨hchain, List.chain'_singleton nf, ?_⟩
      intro x hx y hy
      rw [List.getLast?_concat] at hx
      simp only [List.head?_cons, Option.mem_def, Option.some.injEq] at hx hy
      rw [← hx, ← hy]
      exact hnfstep
    obtain ⟨rest, hrun, hrlen, hrall, hrchain⟩ :=
      ih nf (result ++ [next]) hnfmem
        (by simp only [List.length_append, List.length_singleton]; omega)
        (fun f hf => (List.mem_append.mp hf).elim (hall f)
          (fun h => (List.mem_singleton.mp h) ▸ hmem))
        hchain'
    refine ⟨nf :: rest, ?_, ?_, ?_, ?_⟩
    · rw [dafLoop_succ, hfind]
      dsimp only
      rw [if_pos hlt, hrun]
      simp
    · simpa [List.append_assoc] using hrlen
    · intro f hf
      refine hrall f ?_
      simpa [List.append_assoc] using hf
    · have := hrchain
      simpa [List.append_assoc] using this

/-- C2 (amended): when every touching face has a matching successor among
the touching faces — in particular at any manifold interior vertex —
`directedAdjacentFaces(vIndex)` succeeds and returns a chain of touching
faces, starting at the first touching face, of length equal to the
touching-face count, in which each successive face's next-vertex at
`vIndex` equals the previous face's prev-vertex at `vIndex`.  The call
fails only when the chain reaches a face with no matching successor (for
example at a boundary vertex); it does **not** detect a non-manifold
vertex whose touching faces form several disjoint cycles — there it
silently returns a list containing duplicated faces (see the
counterexample). -/
theorem directedAdjacentFaces_fan (p : Polyhedron) (v : Nat)
    (hne : adjacentFaces p v ≠ [])
    (hsucc : ∀ f ∈ adjacentFaces p v,
      ∃ g ∈ adjacentFaces p v, nextVertex g v = prevVertex f v) :
    ∃ out, directedAdjacentFaces p v = Except.ok out ∧
      out.length = (adjacentFaces p v).length ∧
      out.head? = (adjacentFaces p v).head? ∧
      (∀ f ∈ out, f ∈ adjacentFaces p v) ∧
      List.Chain' (fanStep v) out := by
  obtain ⟨t0, ts, hlist⟩ : ∃ t0 ts, adjacentFaces p v = t0 :: ts := by
    cases h : adjacentFaces p v with
    | nil => exact absurd h hne
    | cons a l => exact ⟨a, l, rfl⟩
  have hlen : (0 : Nat) + (ts.length + 1) = (adjacentFaces p v).length := by
    rw [hlist]; simp
  obtain ⟨rest, hrun, hrlen, hrall, hrchain⟩ :=
    dafLoop_fan (adjacentFaces p v) v hsucc ts.length t0 []
      (by rw [hlist]; exact List.mem_cons_self t0 ts)
      (by simpa using hlen)
      (by intro f hf; exact absurd hf (List.not_mem_nil f))
      (by simp)
  refine ⟨t0 :: rest, ?_, by simpa using hrlen, by rw [hlist]; simp,
    by simpa using hrall, by simpa using hrchain⟩
  rw [directedAdjacentFaces]
  rw [hlist]
  simp only []
  have : (adjacentFaces p v).length = ts.length + 1 := by rw [hlist]; simp
  rw [← hlist]
  rw [this]
  simpa using hrun

end PolyViewer

namespace PolyViewer

/-- A regular-oriented tetrahedron: every directed edge appears in exactly
one face, so every vertex is a manifold interior vertex. -/
def tetrahedron : Polyhedron :=
  Polyhedron.of [(0, 0, 0), (1, 0, 0), (0, 1, 0), (0, 0, 1)]
    [[0, 2, 1], [0, 1, 3], [0, 3, 2], [1, 2, 3]]

/-- C2 witness: at vertex 0 of the tetrahedron the fan hypothesis holds and
the traversal succeeds with the cyclic fan. -/
theorem directedAdjacentFaces_fan_witness :
    adjacentFaces tetrahedron 0 ≠ [] ∧
    ∃ out, directedAdjacentFaces tetrahedron 0 = Except.ok out ∧
      out.length = (adjacentFaces tetrahedron 0).length ∧
      out.head? = (adjacentFaces tetrahedron 0).head? ∧
      (∀ f ∈ out, f ∈ adjacentFaces tetrahedron 0) ∧
      List.Chain' (fanStep 0) out :=
  ⟨by decide, directedAdjacentFaces_fan tetrahedron 0 (by decide) (by decide)⟩

/-- Two triangle fans sharing only vertex 0: a non-manifold vertex whose
touching faces form two disjoint 3-cycles. -/
def twoFanMesh : Polyhedron :=
  Polyhedron.of
    [(0, 0, 0), (1, 0, 0), (0, 1, 0), (0, 0, 1), (2, 0, 0), (0, 2, 0), (0, 0, 2)]
    [[0, 1, 2], [0, 2, 3], [0, 3, 1], [0, 4, 5], [0, 5, 6], [0, 6, 4]]

/-- C2 counterexample: at the non-manifold vertex 0 of `twoFanMesh` the
touching faces form two disjoint cycles, yet `directedAdjacentFaces` does
**not** fail: it silently returns a length-6 list that repeats the first
cycle's three faces twice and never visits the second cycle (face 3 is a
touching face missing from the output). -/
theorem directedAdjacentFaces_nonmanifold_cex :
    directedAdjacentFaces twoFanMesh 0 =
      Except.ok [⟨0, [0, 1, 2]⟩, ⟨1, [0, 2, 3]⟩, ⟨2, [0, 3, 1]⟩,
        ⟨0, [0, 1, 2]⟩, ⟨1, [0, 2, 3]⟩, ⟨2, [0, 3, 1]⟩] ∧
    (⟨3, [0, 4, 5]⟩ : FaceO) ∈ adjacentFaces twoFanMesh 0 ∧
    ¬ ((⟨3, [0, 4, 5]⟩ : FaceO) ∈
        [⟨0, [0, 1, 2]⟩, ⟨1, [0, 2, 3]⟩, ⟨2, [0, 3, 1]⟩,
          (⟨0, [0, 1, 2]⟩ : FaceO), ⟨1, [0, 2, 3]⟩, ⟨2, [0, 3, 1]⟩]) := by
  refine ⟨rfl, by decide, by decide⟩

end PolyViewer

namespace PolyViewer

/-! ## Directed edges, the edge→face lookup, and `getDihedralAngle`

`directedEdgeToFaceGraph()` iterates the faces in order and `_.set`s an
entry per directed edge, so a later face overwrites an earlier one: the
lookup resolves to the **last** face containing the directed edge.
`getDihedralAngle(edge)` looks up both orientations, takes the two faces'
centroids offset from the edge midpoint and returns the angle between
them (`c1.angleBetween(c2, true)`); `getDihedralAnglePair` embeds the
whole computation up to (and excluding) the final `angleBetween` call,
returning the two vectors that JS passes to it.  Any missing lookup makes
the JS throw (undefined member access), modelled as `Except.error`. -/

/-- `face.directedEdges()`: consecutive directed vertex pairs, with wrap. -/
def directedEdges (vs : List Nat) : List (Nat × Nat) := vs.zip (vs.rotate 1)

/-- The `directedEdgeToFaceGraph()` lookup for directed edge `(a, b)`:
the last face (in face order) containing that directed edge. -/
def directedEdgeToFace (p : Polyhedron) (a b : Nat) : Option FaceO :=
  (getFaces p).reverse.find? (fun f => decide ((a, b) ∈ directedEdges f.verts))

/-- `edgeFaces([v1, v2])`: the faces adjacent to the edge, directed face
first. -/
def edgeFaces (p : Polyhedron) (e : Edge) : Option FaceO × Option FaceO :=
  (directedEdgeToFace p e.1 e.2, directedEdgeToFace p e.2 e.1)

/-- Modelled from the spec (§4.3): `face.centroid()` — the mean of the
face's vertex vectors; `none` when a vertex index is out of range or the
face is empty (JS would throw). -/
def faceCentroid (p : Polyhedron) (f : FaceO) : Option Point :=
  (f.verts.mapM (fun i => p.vertices.get? i)).bind getCentroid

/-- The edge resolves to two adjacent faces in the directed-edge lookup. -/
def resolvesTwo (p : Polyhedron) (e : Edge) : Prop :=
  (directedEdgeToFace p e.1 e.2).isSome ∧ (directedEdgeToFace p e.2 e.1).isSome

instance (p : Polyhedron) (e : Edge) : Decidable (resolvesTwo p e) :=
  inferInstanceAs (Decidable (_ ∧ _))

/-- `getDihedralAngle(edge)` up to the final `angleBetween` call: the two
adjacent faces' centroids, each offset from the edge midpoint — exactly
the two vectors whose angle the JS returns. -/
def getDihedralAnglePair (p : Polyhedron) (e : Edge) : Except Unit (Point × Point) :=
  match p.vertices.get? e.1, p.vertices.get? e.2 with
  | some v1, some v2 =>
    match edgeFaces p e with
    | (some f1, some f2) =>
      match faceCentroid p f1, faceCentroid p f2 with
      | some c1, some c2 =>
        Except.ok (vsub c1 (getMidpoint v1 v2), vsub c2 (getMidpoint v1 v2))
      | _, _ => Except.error ()
    | _ => Except.error ()
  | _, _ => Except.error ()

/-- Every face's vertex indices are valid for the owning vertex collection
(spec §3 data-model invariant). -/
def facesValid (p : Polyhedron) : Prop :=
  ∀ f ∈ p.faces, ∀ i ∈ f, i < p.vertices.length

instance (p : Polyhedron) : Decidable (facesValid p) :=
  inferInstanceAs (Decidable (∀ f ∈ p.faces, ∀ i ∈ f, i < p.vertices.length))

theorem verts_mem_faces_of_getFaces {p : Polyhedron} {f : FaceO}
    (h : f ∈ getFaces p) : f.verts ∈ p.faces := by
  simp only [getFaces, List.mem_map, List.mem_range] at h
  obtain ⟨i, hi, rfl⟩ := h
  simp only []
  rw [List.getD_eq_getElem p.faces [] hi]
  exact List.getElem_mem hi

theorem mem_of_mem_directedEdges {a b : Nat} {vs : List Nat}
    (h : (a, b) ∈ directedEdges vs) : a ∈ vs ∧ b ∈ vs := by
  have := List.of_mem_zip h
  exact ⟨this.1, (List.mem_rotate).mp this.2⟩

theorem directedEdgeToFace_mem {p : Polyhedron} {a b : Nat} {f : FaceO}
    (h : directedEdgeToFace p a b = some f) :
    f.verts ∈ p.faces ∧ (a, b) ∈ directedEdges f.verts := by
  have hmem : f ∈ (getFaces p).reverse := List.mem_of_find?_eq_some h
  have hpred := List.find?_some h
  rw [decide_eq_true_eq] at hpred
  exact ⟨verts_mem_faces_of_getFaces (List.mem_reverse.mp hmem), hpred⟩

theorem mapM_get?_of_valid (vtx : List Point) :
    ∀ vs : List Nat, (∀ i ∈ vs, i < vtx.length) →
      ∃ ps : List Point, vs.mapM (fun i => vtx.get? i) = some ps ∧
        ps.length = vs.length := by
  intro vs
  induction vs with
  | nil => intro _; exact ⟨[], rfl, rfl⟩
  | cons i vs ih =>
    intro h
    obtain ⟨ps, hps, hlen⟩ := ih (fun j hj => h j (List.mem_cons_of_mem i hj))
    have hi : i < vtx.length := h i (List.mem_cons_self i vs)
    obtain ⟨v, hv⟩ : ∃ v, vtx.get? i = some v := by
      rw [List.get?_eq_getElem?]
      exact ⟨vtx[i], List.getElem?_eq_getElem hi⟩
    refine ⟨v :: ps, ?_, by simp [hlen]⟩
    rw [List.mapM_cons, hv, hps]
    rfl

theorem faceCentroid_isSome {p : Polyhedron} {f : FaceO}
    (hvalid : ∀ i ∈ f.verts, i < p.vertices.length) (hne : f.verts ≠ []) :
    ∃ c, faceCentroid p f = some c := by
  obtain ⟨ps, hps, hlen⟩ := mapM_get?_of_valid p.vertices f.verts hvalid
  rw [faceCentroid, hps]
  cases ps with
  | nil =>
    exfalso
    apply hne
    cases hvs : f.verts with
    | nil => rfl
    | cons x xs => rw [hvs] at hlen; simp at hlen
  | cons v vs => exact ⟨_, rfl⟩

/-- C3: with valid face indices, `getDihedralAngle(edge)` fails exactly
when the edge does not resolve to two adjacent faces in the directed-edge
lookup, and otherwise returns (the angle between) the two adjacent faces'
centroids, each offset from the edge midpoint. -/
theorem getDihedralAngle_spec (p : Polyhedron) (e : Edge) (hv : facesValid p) :
    (¬ resolvesTwo p e → getDihedralAnglePair p e = Except.error ()) ∧
    (resolvesTwo p e → ∃ f1 f2 c1 c2 v1 v2,
      directedEdgeToFace p e.1 e.2 = some f1 ∧
      directedEdgeToFace p e.2 e.1 = some f2 ∧
      p.vertices.get? e.1 = some v1 ∧ p.vertices.get? e.2 = some v2 ∧
      faceCentroid p f1 = some c1 ∧ faceCentroid p f2 = some c2 ∧
      getDihedralAnglePair p e =
        Except.ok (vsub c1 (getMidpoint v1 v2), vsub c2 (getMidpoint v1 v2))) := by
  constructor
  · intro hnot
    rw [getDihedralAnglePair]
    cases hv1 : p.vertices.get? e.1 with
    | none => rfl
    | some v1 =>
      cases hv2 : p.vertices.get? e.2 with
      | none => rfl
      | some v2 =>
        simp only [edgeFaces]
        cases hf1 : directedEdgeToFace p e.1 e.2 with
        | none => rfl
        | some f1 =>
          cases hf2 : directedEdgeToFace p e.2 e.1 with
          | none => rfl
          | some f2 =>
            exact absurd ⟨by rw [hf1]; rfl, by rw [hf2]; rfl⟩ hnot
  · rintro ⟨h1, h2⟩
    obtain ⟨f1, hf1⟩ := Option.isSome_iff_exists.mp h1
    obtain ⟨f2, hf2⟩ := Option.isSome_iff_exists.mp h2
    obtain ⟨hf1mem, hf1edge⟩ := directedEdgeToFace_mem hf1
    obtain ⟨hf2mem, hf2edge⟩ := directedEdgeToFace_mem hf2
    have he1 : e.1 ∈ f1.verts := (mem_of_mem_directedEdges hf1edge).1
    have he2 : e.2 ∈ f1.verts := (mem_of_mem_directedEdges hf1edge).2
    have hv1' : e.1 < p.vertices.length := hv f1.verts hf1mem e.1 he1
    have hv2' : e.2 < p.vertices.length := hv f1.verts hf1mem e.2 he2
    obtain ⟨v1, hv1⟩ : ∃ v, p.vertices.get? e.1 = some v := by
      rw [List.get?_eq_getElem?]
      exact ⟨p.vertices[e.1], List.getElem?_eq_getElem hv1'⟩
    obtain ⟨v2, hv2⟩ : ∃ v, p.vertices.get? e.2 = some v := by
      rw [List.get?_eq_getElem?]
      exact ⟨p.vertices[e.2], List.getElem?_eq_getElem hv2'⟩
    obtain ⟨c1, hc1⟩ := faceCentroid_isSome
      (fun i hi => hv f1.verts hf1mem i hi) (List.ne_nil_of_mem he1)
    obtain ⟨c2, hc2⟩ := faceCentroid_isSome
      (fun i hi => hv f2.verts hf2mem i hi)
      (List.ne_nil_of_mem (mem_of_mem_directedEdges hf2edge).1)
    refine ⟨f1, f2, c1, c2, v1, v2, hf1, hf2, hv1, hv2, hc1, hc2, ?_⟩
    rw [getDihedralAnglePair, hv1, hv2]
    simp only [edgeFaces]
    rw [hf1, hf2]
    dsimp only
    rw [hc1, hc2]

/-- C3 witness: on the tetrahedron the face indices are valid, the edge
`(0, 1)` resolves to two faces, and the computation succeeds with the two
offset centroids. -/
theorem getDihedralAngle_spec_witness :
    ∃ f1 f2 c1 c2 v1 v2,
      directedEdgeToFace tetrahedron 0 1 = some f1 ∧
      directedEdgeToFace tetrahedron 1 0 = some f2 ∧
      tetrahedron.vertices.get? 0 = some v1 ∧
      tetrahedron.vertices.get? 1 = some v2 ∧
      faceCentroid tetrahedron f1 = some c1 ∧
      faceCentroid tetrahedron f2 = some c2 ∧
      getDihedralAnglePair tetrahedron (0, 1) =
        Except.ok (vsub c1 (getMidpoint v1 v2), vsub c2 (getMidpoint v1 v2)) :=
  (getDihedralAngle_spec tetrahedron (0, 1) (by decide)).2 (by decide)

end PolyViewer

namespace PolyViewer

/-! ## Face-count histogram, face-adjacency fingerprint, `isSame`

`_.countBy` builds a JS object whose numeric keys iterate in ascending
order and which `_.isEqual` compares by key/value content; histograms are
modelled canonically as key-sorted association lists.

`faceAdjacencyList()` sorts the per-face records with `_.sortBy` by the
iteratee paths `n`, `adj.length` (always `undefined` on a plain object)
and `adj[3], adj[4], adj[5], adj[6], adj[8], adj[10]`; `_.sortBy` is a
stable sort and lodash's `compareAscending` orders `undefined` after all
numbers.  Note that adjacent-face counts at side counts outside
{3,4,5,6,8,10} (e.g. 7 or 9) are **not** part of the sort key. -/

/-- A `_.countBy` histogram as a key-sorted association list. -/
def histogram (l : List Nat) : List (Nat × Nat) :=
  ((l.dedup).insertionSort (· ≤ ·)).map (fun k => (k, l.count k))

/-- `faceCount()`: number of faces by side count. -/
def faceCount (p : Polyhedron) : List (Nat × Nat) :=
  histogram ((getFaces p).map FaceO.numSides)

/-- `faceGraph()[i]`: the neighbor list of face `i`, built by iterating the
edges and pushing each edge's two adjacent faces into each other's lists
(in edge order, keeping multiplicities). -/
def faceGraphAt (p : Polyhedron) (i : Nat) : List FaceO :=
  (edges p).foldl (fun acc e =>
    match edgeFaces p e with
    | (some f1, some f2) =>
      let acc' := if f1.fIndex = i then acc ++ [f2] else acc
      if f2.fIndex = i then acc' ++ [f1] else acc'
    | _ => acc) []

/-- One record of `faceAdjacencyList()`: the face's side count and the
histogram of its adjacent faces' side counts. -/
structure FAEntry where
  n : Nat
  adj : List (Nat × Nat)
deriving DecidableEq

/-- The unsorted `faceAdjacencyCounts` records, in face order. -/
def faceAdjacencyCounts (p : Polyhedron) : List FAEntry :=
  (getFaces p).map (fun f =>
    ⟨f.numSides, histogram ((faceGraphAt p f.fIndex).map FaceO.numSides)⟩)

/-- Property lookup `adj[k]` on the histogram object. -/
def adjLookup (h : List (Nat × Nat)) (k : Nat) : Option Nat :=
  (h.find? (fun kv => kv.1 == k)).map Prod.snd

/-- The `_.sortBy` iteratee values of one record: `n`, `adj.length`
(`undefined` on a plain object), then `adj[3] … adj[10]`. -/
def sortKey (x : FAEntry) : List (Option Nat) :=
  [some x.n, none, adjLookup x.adj 3, adjLookup x.adj 4, adjLookup x.adj 5,
    adjLookup x.adj 6, adjLookup x.adj 8, adjLookup x.adj 10]

/-- Lodash `compareAscending` on one iteratee value: numbers ascending,
`undefined` after every number. -/
def optLt : Option Nat → Option Nat → Bool
  | some a, some b => a < b
  | some _, none => true
  | none, _ => false

/-- Lexicographic comparison of iteratee value lists. -/
def keyLt : List (Option Nat) → List (Option Nat) → Bool
  | [], _ => false
  | _ :: _, [] => false
  | a :: as, b :: bs => if optLt a b then true else if optLt b a then false else keyLt as bs

/-- Stable insertion for the `_.sortBy` model: a new element goes after
every already-placed element whose key is not greater. -/
def insEntry (x : FAEntry) : List FAEntry → List FAEntry
  | [] => [x]
  | y :: ys => if keyLt (sortKey x) (sortKey y) then x :: y :: ys else y :: insEntry x ys

/-- `_.sortBy`: stable sort by the iteratee values. -/
def sortEntries (l : List FAEntry) : List FAEntry :=
  l.foldl (fun acc x => insEntry x acc) []

/-- `faceAdjacencyList()`: the sorted topology fingerprint. -/
def faceAdjacencyList (p : Polyhedron) : List FAEntry :=
  sortEntries (faceAdjacencyCounts p)

/-- `isSame(other)`: compare the face-count histograms, then the
fingerprints, with `_.isEqual`. -/
def isSame (p q : Polyhedron) : Bool :=
  if faceCount p = faceCount q then decide (faceAdjacencyList p = faceAdjacencyList q)
  else false

theorem isSame_of_eq (p q : Polyhedron) (h1 : faceCount p = faceCount q)
    (h2 : faceAdjacencyList p = faceAdjacencyList q) : isSame p q = true := by
  simp [isSame, h1, h2]

/-- C4 (amended): `isSame` is reflexive, and it ignores vertex coordinates
(it reads only the face-count histogram and the sorted face-adjacency
fingerprint).  Invariance under an arbitrary consistent relabeling does
**not** hold in general — see the counterexample, where permuting the face
order flips the result because two faces share the whole sort key yet
differ in adjacent side counts outside {3,4,5,6,8,10}. -/
theorem isSame_refl_and_coordinate_blind :
    (∀ p : Polyhedron, isSame p p = true) ∧
    (∀ (vs vs' : List Point) (fs : List Face) (e : Option (List Edge)),
      isSame ⟨vs, fs, e⟩ ⟨vs', fs, e⟩ = true) :=
  ⟨fun p => isSame_of_eq p p rfl rfl,
   fun _ _ _ _ => isSame_of_eq _ _ rfl rfl⟩

/-- Face reordering: a relabeling that permutes the face indices and keeps
every vertex index fixed (a consistent permutation with identity vertex
map). -/
def reorderFaces (p : Polyhedron) (perm : List Nat) : Polyhedron :=
  ⟨p.vertices, perm.map (fun i => p.faces.getD i []), p._edges⟩

/-- A closed oriented mesh containing a triangle surrounded by heptagon
edges and a triangle surrounded by nonagon edges (two components; every
directed edge is matched by its reverse). -/
def heptNonagonMesh : Polyhedron :=
  Polyhedron.of
    [(0, 0, 0), (1, 0, 0), (0, 1, 0), (0, 0, 1), (2, 0, 0), (0, 2, 0),
      (0, 0, 2), (3, 0, 0), (0, 3, 0)]
    [[0, 1, 2], [1, 0, 3, 0, 2, 1, 3], [4, 5, 6], [5, 4, 7, 4, 6, 5, 8, 5, 7]]

/-- C4 counterexample: `[2, 3, 0, 1]` is a permutation of the face
indices, yet `isSame` of the mesh and its face-reordered relabeling is
`false`: the two triangles tie on every sort key (their adjacent side
counts 7 resp. 9 are outside the key set), so the stable sort preserves
their original relative order and the fingerprints differ. -/
theorem isSame_relabel_cex :
    List.Perm [2, 3, 0, 1] (List.range 4) ∧
    heptNonagonMesh.faces.length = 4 ∧
    isSame heptNonagonMesh (reorderFaces heptNonagonMesh [2, 3, 0, 1]) = false := by
  refine ⟨by decide, rfl, by decide⟩

end PolyViewer

namespace PolyViewer

/-! ## The augment scenario (spec-modelled)

`operations.augment` and the solid catalog are not among the sources (the
catalog is an external collaborator, §6; only `operations.test.js` is
present), so the triangular-cupola data and the augment output are
modelled from the spec: §4.5 — augment attaches a cap matching the side
count of `faces[faceIndex]`, fuses the cap's base ring to that face's
boundary so edge lengths match, `gyrate` picks one of the two rotational
offsets (offset by `π / n`), and the result is a new instance with fresh
caches.  The glossary fixes the cupola shape: an n-gon and a 2n-gon
bridged by alternating triangles and squares.

Coordinates are rational approximations (7 decimal digits) of the exact
unit-edge cupola: hexagon of circumradius 1 in the plane `z = 0`, top
triangle of circumradius `1/√3` at height `√(2/3)`. -/

/-- `√3/2` to 7 decimal digits. -/
def rtS : ℚ := 8660254/10000000

/-- `1/√3` to 7 decimal digits. -/
def rtQ : ℚ := 5773503/10000000

/-- `1/(2√3)` to 7 decimal digits. -/
def rtT : ℚ := 2886751/10000000

/-- `√(2/3)` (the cupola height) to 7 decimal digits. -/
def rtH : ℚ := 8164966/10000000

/-- Modelled from the spec: the catalog data for `"triangular-cupola"`,
with the hexagonal base at face index 7 (the index the test augments). -/
def triangularCupola : Polyhedron :=
  Polyhedron.of
    [(1, 0, 0), (1/2, rtS, 0), (-1/2, rtS, 0), (-1, 0, 0), (-1/2, -rtS, 0),
      (1/2, -rtS, 0), (0, rtQ, rtH), (-1/2, -rtT, rtH), (1/2, -rtT, rtH)]
    [[6, 7, 8], [0, 1, 6, 8], [1, 2, 6], [2, 3, 7, 6], [3, 4, 7], [4, 5, 8, 7],
      [5, 0, 8], [0, 1, 2, 3, 4, 5]]

/-- The two discrete rotational alignments of an ambiguous cap (§4.5). -/
inductive Gyrate where
  | ortho : Gyrate
  | gyro : Gyrate
deriving DecidableEq

/-- The three added cap vertices: the mirrored top triangle ("ortho") or
the same triangle rotated by the fixed angular step `π/3` ("gyro"). -/
def capVerts : Gyrate → List Point
  | Gyrate.ortho => [(0, rtQ, -rtH), (-1/2, -rtT, -rtH), (1/2, -rtT, -rtH)]
  | Gyrate.gyro => [(-1/2, rtT, -rtH), (0, -rtQ, -rtH), (1/2, rtT, -rtH)]

/-- The seven cap faces fused onto the hexagon ring `0…5` (cap vertices
get indices 9, 10, 11). -/
def capFaces : Gyrate → List Face
  | Gyrate.ortho =>
      [[9, 10, 11], [0, 1, 9, 11], [1, 2, 9], [2, 3, 10, 9], [3, 4, 10],
        [4, 5, 11, 10], [5, 0, 11]]
  | Gyrate.gyro =>
      [[9, 10, 11], [0, 1, 11], [1, 2, 9, 11], [2, 3, 9], [3, 4, 10, 9],
        [4, 5, 10], [5, 0, 11, 10]]

/-- Modelled from the spec: the mesh produced by
`augment(get("triangular-cupola"), {faceIndex: 7, gyrate: g})` — the
hexagonal face is replaced by the aligned cap, on a fresh instance. -/
def augmentTriCupola7 (g : Gyrate) : Polyhedron :=
  Polyhedron.of (triangularCupola.vertices ++ capVerts g)
    ((triangularCupola.faces.eraseIdx 7) ++ capFaces g)

/-- The boundary ring between the new cap and the base: the six former
hexagon edges (the fused ring). -/
def boundaryRing : List Edge :=
  [(0, 1), (1, 2), (2, 3), (3, 4), (4, 5), (5, 0)]

/-- The faces containing both endpoints of an edge — how the test's
`checkGyrate` finds the two faces adjacent to a boundary edge. -/
def facesWithBothEndpoints (p : Polyhedron) (e : Edge) : List Face :=
  p.faces.filter (fun f => decide (e.1 ∈ f ∧ e.2 ∈ f))

/-- The test's per-edge alignment check: "ortho" — both adjacent faces are
triangles or both are not; "gyro" — exactly one is a triangle. -/
def gyrateEdgeOk (p : Polyhedron) (g : Gyrate) (e : Edge) : Bool :=
  match (facesWithBothEndpoints p e).map List.length with
  | [n1, n2] =>
    match g with
    | Gyrate.ortho => decide (n1 = 3) == decide (n2 = 3)
    | Gyrate.gyro => decide (n1 = 3) != decide (n2 = 3)
  | _ => false

/-- C6: for both alignments, every boundary edge between the new cap and
the base satisfies the requested ortho/gyro adjacency pattern (and resolves
to exactly two adjacent faces). -/
theorem augment_alignment (g : Gyrate) (e : Edge) (he : e ∈ boundaryRing) :
    gyrateEdgeOk (augmentTriCupola7 g) g e = true := by
  revert e
  cases g <;> decide

/-- C6 witness: the first ring edge of the ortho augmentation separates
two faces of the same class. -/
theorem augment_alignment_witness :
    gyrateEdgeOk (augmentTriCupola7 Gyrate.ortho) Gyrate.ortho (0, 1) = true :=
  augment_alignment Gyrate.ortho (0, 1) (by decide)

end PolyViewer

namespace PolyViewer

/-! ## Uniform edge length after augmenting (the test's
`checkProperPolyhedron`): every derived edge of the result has the same
length within the fixed tolerance `1e-3`.  An edge length is
`v1.distanceTo(v2)`: the real square root of the rational squared
distance. -/

/-- The squared length of an edge (vertex lookups as in
`polyhedron.vertexVectors()[vIndex]`). -/
def edgeSqLen (p : Polyhedron) (e : Edge) : ℚ :=
  sqDist (p.vertices.getD e.1 (0, 0, 0)) (p.vertices.getD e.2 (0, 0, 0))

theorem augment_ortho_edges_eq :
    edges (augmentTriCupola7 Gyrate.ortho) =
      [(6, 7), (7, 8), (6, 8), (0, 1), (1, 6), (0, 8), (1, 2), (2, 6), (2, 3),
        (3, 7), (3, 4), (4, 7), (4, 5), (5, 8), (0, 5), (9, 10), (10, 11),
        (9, 11), (1, 9), (0, 11), (2, 9), (3, 10), (4, 10), (5, 11)] := rfl

theorem augment_sq_bounds :
    ∀ e ∈ edges (augmentTriCupola7 Gyrate.ortho),
      1 - 1/1000000 ≤ edgeSqLen (augmentTriCupola7 Gyrate.ortho) e ∧
      edgeSqLen (augmentTriCupola7 Gyrate.ortho) e ≤ 1 + 1/1000000 := by
  intro e he
  rw [augment_ortho_edges_eq] at he
  fin_cases he <;>
    norm_num [edgeSqLen, augmentTriCupola7, triangularCupola, Polyhedron.of,
      capVerts, sqDist, normSq, vsub, vdot, rtS, rtQ, rtT, rtH, List.getD]

theorem sqrt_close (x y : ℚ)
    (hx0 : 1 - 1/1000000 ≤ x) (hx1 : x ≤ 1 + 1/1000000)
    (hy0 : 1 - 1/1000000 ≤ y) (hy1 : y ≤ 1 + 1/1000000) :
    |Real.sqrt (x : ℝ) - Real.sqrt (y : ℝ)| ≤ 1/1000 := by
  have hx0' : (1 : ℝ) - 1/1000000 ≤ (x : ℝ) := by
    have h : ((1 - 1/1000000 : ℚ) : ℝ) ≤ ((x : ℚ) : ℝ) := Rat.cast_le.mpr hx0
    push_cast at h
    exact h
  have hx1' : (x : ℝ) ≤ 1 + 1/1000000 := by
    have h : ((x : ℚ) : ℝ) ≤ ((1 + 1/1000000 : ℚ) : ℝ) := Rat.cast_le.mpr hx1
    push_cast at h
    exact h
  have hy0' : (1 : ℝ) - 1/1000000 ≤ (y : ℝ) := by
    have h : ((1 - 1/1000000 : ℚ) : ℝ) ≤ ((y : ℚ) : ℝ) := Rat.cast_le.mpr hy0
    push_cast at h
    exact h
  have hy1' : (y : ℝ) ≤ 1 + 1/1000000 := by
    have h : ((y : ℚ) : ℝ) ≤ ((1 + 1/1000000 : ℚ) : ℝ) := Rat.cast_le.mpr hy1
    push_cast at h
    exact h
  set a : ℝ := (x : ℝ)
  set b : ℝ := (y : ℝ)
  have hann : (0:ℝ) ≤ a := by linarith
  have hbnn : (0:ℝ) ≤ b := by linarith
  have hsa : (1/2 : ℝ) ≤ Real.sqrt a := by
    rw [show (1/2 : ℝ) = Real.sqrt (1/4) by
      rw [show (1/4 : ℝ) = (1/2)^2 by norm_num, Real.sqrt_sq (by norm_num)]]
    exact Real.sqrt_le_sqrt (by linarith)
  have hsb : (1/2 : ℝ) ≤ Real.sqrt b := by
    rw [show (1/2 : ℝ) = Real.sqrt (1/4) by
      rw [show (1/4 : ℝ) = (1/2)^2 by norm_num, Real.sqrt_sq (by norm_num)]]
    exact Real.sqrt_le_sqrt (by linarith)
  have hsum : (1:ℝ) ≤ Real.sqrt a + Real.sqrt b := by linarith
  have hprod : (Real.sqrt a - Real.sqrt b) * (Real.sqrt a + Real.sqrt b) = a - b := by
    have h1 : Real.sqrt a ^ 2 = a := Real.sq_sqrt hann
    have h2 : Real.sqrt b ^ 2 = b := Real.sq_sqrt hbnn
    linear_combination h1 - h2
  have habs : |Real.sqrt a - Real.sqrt b| * (Real.sqrt a + Real.sqrt b) = |a - b| := by
    rw [← abs_of_nonneg (show (0:ℝ) ≤ Real.sqrt a + Real.sqrt b by linarith),
      ← abs_mul, hprod]
  have hle : |Real.sqrt a - Real.sqrt b| ≤ |a - b| := by
    calc |Real.sqrt a - Real.sqrt b|
        = |Real.sqrt a - Real.sqrt b| * 1 := (mul_one _).symm
      _ ≤ |Real.sqrt a - Real.sqrt b| * (Real.sqrt a + Real.sqrt b) :=
          mul_le_mul_of_nonneg_left hsum (abs_nonneg _)
      _ = |a - b| := habs
  have hxy : |a - b| ≤ 2/1000000 := by
    rw [abs_le]
    constructor <;> linarith
  linarith

/-- C7: every pair of derived edges of
`augment(get("triangular-cupola"), {faceIndex: 7, gyrate: "ortho"})` has
lengths (`v1.distanceTo(v2)`, the real square root of the rational
squared distance) agreeing within the fixed tolerance `1e-3`. -/
theorem augment_uniform_edge_lengths (e1 e2 : Edge)
    (he1 : e1 ∈ edges (augmentTriCupola7 Gyrate.ortho))
    (he2 : e2 ∈ edges (augmentTriCupola7 Gyrate.ortho)) :
    |Real.sqrt ((edgeSqLen (augmentTriCupola7 Gyrate.ortho) e1 : ℚ) : ℝ) -
      Real.sqrt ((edgeSqLen (augmentTriCupola7 Gyrate.ortho) e2 : ℚ) : ℝ)| ≤
      1/1000 := by
  obtain ⟨h1a, h1b⟩ := augment_sq_bounds e1 he1
  obtain ⟨h2a, h2b⟩ := augment_sq_bounds e2 he2
  exact sqrt_close _ _ h1a h1b h2a h2b

/-- C7 witness: a top-triangle edge and a ring edge of the ortho
augmentation have lengths within `1e-3` of each other. -/
theorem augment_uniform_edge_lengths_witness :
    |Real.sqrt ((edgeSqLen (augmentTriCupola7 Gyrate.ortho) (6, 7) : ℚ) : ℝ) -
      Real.sqrt ((edgeSqLen (augmentTriCupola7 Gyrate.ortho) (0, 1) : ℚ) : ℝ)| ≤
      1/1000 :=
  augment_uniform_edge_lengths (6, 7) (0, 1)
    (by rw [augment_ortho_edges_eq]; decide) (by rw [augment_ortho_edges_eq]; decide)

end PolyViewer

namespace PolyViewer

/-! ## `getPlane` and `isPlanar` (`src/math/linAlg.js`)

`getPlane` throws for fewer than 3 points and otherwise builds
`new Plane(new Triangle3D(..._.take(points, 3)))`: the plane is anchored at
a point of the triangle with (normalized) normal `(a−c) × (a−b)`; the
embedding keeps the unnormalized normal, since the distance test only
depends on the plane.  `plane.getDistanceToPoint(q)` is the unsigned
distance `|n·(q−o)|/‖n‖`, and `isPlanar` checks `distance < PRECISION`
for every point — modelled by the equivalent rational comparison
`(n·(q−o))² < PRECISION²·‖n‖²` (for a degenerate zero normal the JS
distance is `NaN` and every comparison is false, as here). -/

/-- `getPlane(points)`: fails iff fewer than 3 points are supplied;
otherwise the plane through the first three, as anchor point and
unnormalized normal. -/
def getPlane (points : List Point) : Except Unit (Point × Point) :=
  match points with
  | a :: _ :: _ :: _ =>
    Except.ok (a, vcross (vsub a (points.getD 2 (0, 0, 0))) (vsub a (points.getD 1 (0, 0, 0))))
  | _ => Except.error ()

/-- `plane.getDistanceToPoint(q) < PRECISION` as a rational comparison. -/
def distLtPrecision (pl : Point × Point) (q : Point) : Bool :=
  decide ((vdot pl.2 (vsub q pl.1))^2 < PRECISION^2 * normSq pl.2)

/-- `isPlanar(points)`: every supplied point within `PRECISION` of the
plane through the first three. -/
def isPlanar (points : List Point) : Except Unit Bool :=
  match getPlane points with
  | Except.error e => Except.error e
  | Except.ok pl => Except.ok (points.all (distLtPrecision pl))

theorem normSq_pos_of_ne_zero {v : Point} (h : v ≠ ((0 : ℚ), (0 : ℚ), (0 : ℚ))) :
    0 < normSq v := by
  obtain ⟨x, y, z⟩ := v
  have hx : 0 ≤ x * x := mul_self_nonneg x
  have hy : 0 ≤ y * y := mul_self_nonneg y
  have hz : 0 ≤ z * z := mul_self_nonneg z
  rcases lt_or_eq_of_le (by simp [normSq, vdot]; nlinarith :
      (0:ℚ) ≤ normSq (x, y, z)) with hpos | heq
  · exact hpos
  · exfalso
    apply h
    have hsum : x * x + y * y + z * z = 0 := by
      have : normSq (x, y, z) = x * x + y * y + z * z := rfl
      rw [this] at heq
      linarith
    have hx0 : x = 0 := by
      have : x * x = 0 := by linarith
      exact mul_self_eq_zero.mp this
    have hy0 : y = 0 := by
      have : y * y = 0 := by linarith
      exact mul_self_eq_zero.mp this
    have hz0 : z = 0 := by
      have : z * z = 0 := by linarith
      exact mul_self_eq_zero.mp this
    rw [hx0, hy0, hz0]

/-- The rational squared comparison is exactly the real unsigned-distance
comparison against `PRECISION`. -/
theorem distLtPrecision_iff (n o q : Point) (hn : 0 < normSq n) :
    distLtPrecision (o, n) q = true ↔
      |((vdot n (vsub q o) : ℚ) : ℝ)| / Real.sqrt ((normSq n : ℚ) : ℝ) <
        ((PRECISION : ℚ) : ℝ) := by
  rw [distLtPrecision, decide_eq_true_iff]
  have hsR : (0:ℝ) < ((normSq n : ℚ) : ℝ) := by exact_mod_cast hn
  have hsqrt : (0:ℝ) < Real.sqrt ((normSq n : ℚ) : ℝ) := Real.sqrt_pos.mpr hsR
  have hepsQ : (0:ℚ) < PRECISION := by norm_num [PRECISION]
  have heps : (0:ℝ) < ((PRECISION : ℚ) : ℝ) := by exact_mod_cast hepsQ
  set d : ℚ := vdot n (vsub q o) with hd
  set s : ℚ := normSq n with hs
  have hsq : (Real.sqrt ((s : ℚ) : ℝ))^2 = ((s : ℚ) : ℝ) := Real.sq_sqrt hsR.le
  constructor
  · intro hQ
    have hR : ((d : ℚ) : ℝ)^2 < ((PRECISION : ℚ) : ℝ)^2 * ((s : ℚ) : ℝ) := by
      have := (Rat.cast_lt (K := ℝ)).mpr hQ
      push_cast at this
      linarith
    rw [div_lt_iff hsqrt]
    have hrhs : (((PRECISION : ℚ) : ℝ) * Real.sqrt ((s : ℚ) : ℝ))^2 =
        ((PRECISION : ℚ) : ℝ)^2 * ((s : ℚ) : ℝ) := by
      rw [mul_pow, hsq]
    have habs2 : |((d : ℚ) : ℝ)|^2 < (((PRECISION : ℚ) : ℝ) * Real.sqrt ((s : ℚ) : ℝ))^2 := by
      rw [sq_abs, hrhs]
      exact hR
    exact lt_of_pow_lt_pow_left 2 (by positivity) habs2
  · intro hR
    rw [div_lt_iff hsqrt] at hR
    have habs2 : |((d : ℚ) : ℝ)|^2 < (((PRECISION : ℚ) : ℝ) * Real.sqrt ((s : ℚ) : ℝ))^2 :=
      pow_lt_pow_left hR (abs_nonneg _) (by norm_num)
    rw [sq_abs, mul_pow, hsq] at habs2
    have hQ' : ((d^2 : ℚ) : ℝ) < ((PRECISION^2 * s : ℚ) : ℝ) := by
      push_cast
      linarith
    exact_mod_cast hQ'

/-- C8: `getPlane` fails exactly when fewer than 3 points are supplied and
otherwise returns the plane through the first three points; `isPlanar`
fails in the same case, and (for a non-degenerate leading triple) holds
exactly when every supplied point's unsigned distance to that plane is
below `PRECISION = 10⁻³`. -/
theorem getPlane_isPlanar_spec (points : List Point) :
    (getPlane points = Except.error () ↔ points.length < 3) ∧
    (isPlanar points = Except.error () ↔ points.length < 3) ∧
    (∀ a b c rest, points = a :: b :: c :: rest →
      getPlane points = Except.ok (a, vcross (vsub a c) (vsub a b)) ∧
      (vcross (vsub a c) (vsub a b) ≠ ((0 : ℚ), (0 : ℚ), (0 : ℚ)) →
        (isPlanar points = Except.ok true ↔
          ∀ q ∈ points,
            |((vdot (vcross (vsub a c) (vsub a b)) (vsub q a) : ℚ) : ℝ)| /
              Real.sqrt ((normSq (vcross (vsub a c) (vsub a b)) : ℚ) : ℝ) <
              ((PRECISION : ℚ) : ℝ)))) := by
  refine ⟨?_, ?_, ?_⟩
  · match points with
    | [] => simp [getPlane]
    | [a] => simp [getPlane]
    | [a, b] => simp [getPlane]
    | a :: b :: c :: rest => simp [getPlane]
  · match points with
    | [] => simp [isPlanar, getPlane]
    | [a] => simp [isPlanar, getPlane]
    | [a, b] => simp [isPlanar, getPlane]
    | a :: b :: c :: rest => simp [isPlanar, getPlane]
  · rintro a b c rest rfl
    refine ⟨rfl, ?_⟩
    intro hnz
    have hpl : isPlanar (a :: b :: c :: rest) =
        Except.ok ((a :: b :: c :: rest).all
          (distLtPrecision (a, vcross (vsub a c) (vsub a b)))) := rfl
    rw [hpl]
    have hn : 0 < normSq (vcross (vsub a c) (vsub a b)) := normSq_pos_of_ne_zero hnz
    constructor
    · intro h q hq
      have hall : (a :: b :: c :: rest).all
          (distLtPrecision (a, vcross (vsub a c) (vsub a b))) = true := by
        injection h
      rw [List.all_eq_true] at hall
      exact (distLtPrecision_iff _ a q hn).mp (hall q hq)
    · intro h
      have hall : (a :: b :: c :: rest).all
          (distLtPrecision (a, vcross (vsub a c) (vsub a b))) = true := by
        rw [List.all_eq_true]
        intro q hq
        exact (distLtPrecision_iff _ a q hn).mpr (h q hq)
      rw [hall]

/-- C8 witness: for four coplanar points the characterization applies with
the plane through the first three. -/
theorem getPlane_isPlanar_spec_witness :
    isPlanar [((0:ℚ), (0:ℚ), (0:ℚ)), (1, 0, 0), (0, 1, 0), (1, 1, 0)] = Except.ok true ↔
      ∀ q ∈ [((0:ℚ), (0:ℚ), (0:ℚ)), (1, 0, 0), (0, 1, 0), (1, 1, 0)],
        |((vdot (vcross (vsub (0, 0, 0) (0, 1, 0)) (vsub (0, 0, 0) (1, 0, 0)))
            (vsub q (0, 0, 0)) : ℚ) : ℝ)| /
          Real.sqrt ((normSq (vcross (vsub (0, 0, 0) (0, 1, 0))
            (vsub (0, 0, 0) (1, 0, 0))) : ℚ) : ℝ) < ((PRECISION : ℚ) : ℝ) :=
  ((getPlane_isPlanar_spec _).2.2 (0, 0, 0) (1, 0, 0) (0, 1, 0) [(1, 1, 0)] rfl).2
    (by norm_num [vcross, vsub, Prod.ext_iff])

end PolyViewer
